import Mathlib

/-!
Verification of the Dispersy peer-discovery core (`discovery/community.py`)
and the standalone tracker (`tool/tracker.py`).

Shallow embedding conventions:
* 20-byte community identifiers (CIDs / preferences), member identifiers
  (MIDs) and socket addresses are modelled as opaque `Nat` tokens.
* Python `set`s of preferences are modelled as `Finset Nat`; preference
  lists keep their order as `List Nat`.
* Timestamps are modelled as `Int`; `time()` values are passed explicitly
  as a `now` argument.  `PING_TIMEOUT` / `PING_INTERVAL` derive from the
  framework constant `CANDIDATE_WALK_LIFETIME`, which lives outside the
  repository; they are passed as explicit parameters.
* Mutating methods become functions from the old state to the new state.
-/

namespace Dispersy

/-- Model of `compute_overlap` from `discovery/community.py`:
`len(set(his_prefs) & set(my_prefs or self.my_preferences()))`.
`myPreferences` models `self.my_preferences()`; the `my_prefs or ...`
expression falls back to `my_preferences()` when `my_prefs` is `None`
*or an empty (falsy) list*. -/
def compute_overlap (myPreferences hisPrefs : List Nat) (myPrefs : Option (List Nat)) : Nat :=
  (hisPrefs.toFinset ∩ (match myPrefs with
    | some m => if m = [] then myPreferences.toFinset else m.toFinset
    | none => myPreferences.toFinset)).card

/-- Model of `compute_overlap` applied to an already-built preference `set`, as in
`TasteBuddy.update_overlap` (where `set(his_prefs)` is the identity). -/
def computeOverlapSet (myPreferences : List Nat) (prefs : Finset Nat) : Nat :=
  (prefs ∩ myPreferences.toFinset).card

/-- Per-buddy 32-bit bitfield built in `on_similarity_request`:
`sum([2 ** index for index in range(min(len(his_preferences), 4 * 8))
      if his_preferences[index] in tb.preferences])`. -/
def similarityBitfield (hisPreferences : List Nat) (tbPreferences : Finset Nat) : Nat :=
  (((List.range (min hisPreferences.length (4 * 8))).filter
      (fun index => decide (hisPreferences.getD index 0 ∈ tbPreferences))).map
    (fun index => 2 ^ index)).sum

/-- Decoding in `on_similarity_response`:
`set([original_list[index] for index in range(min(len(original_list), 4 * 8))
      if bool(bitfield & 2 ** index)])`. -/
def decodeTbPreferences (originalList : List Nat) (bitfield : Nat) : Finset Nat :=
  (((List.range (min originalList.length (4 * 8))).filter
      (fun index => decide (bitfield &&& 2 ^ index ≠ 0))).map
    (fun index => originalList.getD index 0)).toFinset

/-- Generic form of the encoder: the sum of `2^i` over the indices `i < n`
satisfying `p`. -/
def bitfieldSum (p : Nat → Bool) (n : Nat) : Nat :=
  (((List.range n).filter p).map (fun i => 2 ^ i)).sum

/-- Model of `ActualTasteBuddy` (confirmed buddy).  `candidate` is modelled by its
socket address; equality between buddies is socket-address equality, as in
`TasteBuddy.__eq__`. -/
structure ActualTasteBuddy where
  overlap : Nat
  preferences : Finset Nat
  sockAddr : Nat
  timestamp : Int
  candidateMid : Nat
deriving DecidableEq

/-- Model of `TasteBuddy.update_overlap(other, compute_overlap)`: union the
preferences and recompute the overlap against `my_preferences()`. -/
def updateOverlapATB (myPreferences : List Nat) (tb other : ActualTasteBuddy) : ActualTasteBuddy :=
  { tb with
    preferences := tb.preferences ∪ other.preferences
    overlap := computeOverlapSet myPreferences (tb.preferences ∪ other.preferences) }

/-- Stable insertion into a descending-by-key list (model of Python's stable
`list.sort(reverse=True)` under `TasteBuddy.__cmp__`, which compares
`overlap`). -/
def insertOverlapDesc {α : Type} (key : α → Nat) (x : α) : List α → List α
  | [] => [x]
  | y :: ys => if key y < key x then x :: y :: ys else y :: insertOverlapDesc key x ys

/-- Stable descending sort by key (same function as Python's stable
`sort(reverse=True)` with an `overlap` comparator). -/
def sortOverlapDesc {α : Type} (key : α → Nat) : List α → List α
  | [] => []
  | x :: xs => insertOverlapDesc key x (sortOverlapDesc key xs)

/-- Model of `new_taste_buddies.remove(new_taste_buddy)`: Python `list.remove` deletes
the first element `==` the argument, and `TasteBuddy.__eq__` compares socket
addresses. -/
def removeFirstSockATB : List ActualTasteBuddy → Nat → List ActualTasteBuddy
  | [], _ => []
  | tb :: rest, s => if tb.sockAddr = s then rest else tb :: removeFirstSockATB rest s

/-- The inner `for taste_buddy in self.taste_buddies: if == : update; break`
loop of `add_taste_buddies`: update the first socket-matching entry in
place. -/
def mergeIntoFirst (myPreferences : List Nat) :
    List ActualTasteBuddy → ActualTasteBuddy → List ActualTasteBuddy
  | [], _ => []
  | tb :: rest, n =>
    if tb.sockAddr = n.sockAddr then updateOverlapATB myPreferences tb n :: rest
    else tb :: mergeIntoFirst myPreferences rest n

/-- The `for new_taste_buddy in new_taste_buddies:` loop of
`add_taste_buddies`, with CPython iterator semantics made explicit: the
iterator index `i` advances by one each step even when the current element is
removed from the list (`new_taste_buddies.remove(...)`), which makes the
element after a merged one be skipped.  `fuel` bounds the recursion and is
always sufficient when started at `new.length`. -/
def addTasteBuddiesGo (myPreferences : List Nat) :
    Nat → List ActualTasteBuddy → List ActualTasteBuddy → Nat → List ActualTasteBuddy
  | 0, tbs, _, _ => tbs
  | fuel + 1, tbs, new, i =>
    if h : i < new.length then
      if tbs.any (fun tb => tb.sockAddr == new[i].sockAddr) then
        addTasteBuddiesGo myPreferences fuel (mergeIntoFirst myPreferences tbs new[i])
          (removeFirstSockATB new new[i].sockAddr) (i + 1)
      else
        addTasteBuddiesGo myPreferences fuel (tbs ++ [new[i]]) new (i + 1)
    else tbs

/-- Model of `DiscoveryCommunity.add_taste_buddies` (state part: the resulting
`self.taste_buddies`; candidate cross-wiring to other communities and the
ping `LoopingCall` are external effects). -/
def add_taste_buddies (myPreferences : List Nat) (tbs new : List ActualTasteBuddy) :
    List ActualTasteBuddy :=
  sortOverlapDesc (fun tb => tb.overlap) (addTasteBuddiesGo myPreferences new.length tbs new 0)

/-- The amended visiting order, written from the observable behaviour: after
an element merges into an existing entry, the immediately following element
of the input is skipped entirely; a visited element with no socket match is
appended. -/
def addTasteBuddiesVisit (myPreferences : List Nat) :
    List ActualTasteBuddy → List ActualTasteBuddy → List ActualTasteBuddy
  | tbs, [] => tbs
  | tbs, n :: rest =>
    if tbs.any (fun tb => tb.sockAddr == n.sockAddr) then
      match rest with
      | [] => mergeIntoFirst myPreferences tbs n
      | _ :: rest' => addTasteBuddiesVisit myPreferences (mergeIntoFirst myPreferences tbs n) rest'
    else addTasteBuddiesVisit myPreferences (tbs ++ [n]) rest

/-- Existing confirmed buddy at socket 1. -/
def atbExisting : ActualTasteBuddy := ⟨1, {7}, 1, 100, 11⟩

/-- New buddy whose socket matches `atbExisting`, so it merges. -/
def atbMerged : ActualTasteBuddy := ⟨0, ∅, 1, 100, 12⟩

/-- New buddy at a fresh socket, positioned right after the merged one. -/
def atbSkipped : ActualTasteBuddy := ⟨3, {7, 8}, 2, 100, 13⟩

/-- Model of `ActualTasteBuddy.time_remaining` (also used by `PossibleTasteBuddy`):
`diff = timestamp - (now - PING_TIMEOUT); diff if diff > 0 else 0`.
`PING_TIMEOUT = CANDIDATE_WALK_LIFETIME / 2` is a framework constant outside
this repository, so it is passed explicitly. -/
def timeRemaining (pingTimeout now timestamp : Int) : Int :=
  if timestamp - (now - pingTimeout) > 0 then timestamp - (now - pingTimeout) else 0

/-- The stale-entry purge at the top of `yield_taste_buddies`: the reverse
index loop popping every entry with `time_remaining() == 0` keeps exactly
the entries with nonzero time remaining, in order. -/
def pruneStaleTbs (pingTimeout now : Int) (tbs : List ActualTasteBuddy) : List ActualTasteBuddy :=
  tbs.filter (fun tb => decide (timeRemaining pingTimeout now tb.timestamp ≠ 0))

/-- Model of `yield_taste_buddies(ignore_candidate)`: purge stale entries (state
side effect, first component), then yield entries with nonzero `overlap`
whose socket differs from the ignored candidate's.  The Python code
shuffles a snapshot before yielding; the shuffle is modelled as the
identity since every property proved below is invariant under permutation
of the yielded list. -/
def yieldTasteBuddies (pingTimeout now : Int) (ignoreSock : Option Nat)
    (tbs : List ActualTasteBuddy) : List ActualTasteBuddy × List ActualTasteBuddy :=
  let pruned := pruneStaleTbs pingTimeout now tbs
  (pruned, pruned.filter (fun tb =>
    decide (tb.overlap ≠ 0) &&
      (match ignoreSock with
        | none => true
        | some s => decide (tb.sockAddr ≠ s))))

/-- Model of `is_taste_buddy_mid(mid)`: first yielded buddy with the given MID (plus
the pruned state). -/
def isTasteBuddyMid (pingTimeout now : Int) (tbs : List ActualTasteBuddy) (mid : Nat) :
    List ActualTasteBuddy × Option ActualTasteBuddy :=
  let pair := yieldTasteBuddies pingTimeout now none tbs
  (pair.1, pair.2.find? (fun tb => mid == tb.candidateMid))

/-- Model of `remove_taste_buddy(candidate)`: find the first yielded buddy equal to
the candidate (candidates are modelled by socket address, the
`ActualTasteBuddy.__eq__` fallback), then `list.remove` it — which deletes
the first entry of the (already pruned) list whose socket matches. -/
def removeTasteBuddy (pingTimeout now : Int) (tbs : List ActualTasteBuddy) (cSock : Nat) :
    List ActualTasteBuddy :=
  let pair := yieldTasteBuddies pingTimeout now none tbs
  match pair.2.find? (fun tb => tb.sockAddr == cSock) with
  | some tb => removeFirstSockATB pair.1 tb.sockAddr
  | none => pair.1

/-- In-place `tb.timestamp = time()` on the first list entry equal to the
found buddy (object identity modelled as structural equality). -/
def setTimestampFirstEq : List ActualTasteBuddy → ActualTasteBuddy → Int → List ActualTasteBuddy
  | [], _, _ => []
  | x :: rest, tb, now =>
    if x = tb then { x with timestamp := now } :: rest
    else x :: setTimestampFirstEq rest tb now

/-- Model of `reset_taste_buddy(candidate)`: refresh the timestamp of the first
yielded buddy matching the candidate. -/
def resetTasteBuddy (pingTimeout now : Int) (tbs : List ActualTasteBuddy) (cSock : Nat) :
    List ActualTasteBuddy :=
  let pair := yieldTasteBuddies pingTimeout now none tbs
  match pair.2.find? (fun tb => tb.sockAddr == cSock) with
  | some tb => setTimestampFirstEq pair.1 tb now
  | none => pair.1

/-- Model of `create_ping_requests`: the candidates selected for a ping are the
yielded buddies with `time_remaining() < PING_INTERVAL` (state after the
purge, and the requested socket list). -/
def createPingRequests (pingTimeout pingInterval now : Int) (tbs : List ActualTasteBuddy) :
    List ActualTasteBuddy × List Nat :=
  let pair := yieldTasteBuddies pingTimeout now none tbs
  (pair.1,
    (pair.2.filter (fun tb =>
      decide (timeRemaining pingTimeout now tb.timestamp < pingInterval))).map
      (fun tb => tb.sockAddr))

/-- Model of `DiscoveryCommunity.PingRequestCache`: the requested candidates and the
set of candidates a pong has been received from (candidates modelled by
socket address). -/
structure PingRequestCache where
  requestedCandidates : List Nat
  receivedCandidates : Finset Nat
deriving DecidableEq

/-- Model of `PingRequestCache.did_request`: socket-address membership in the
requested list. -/
def didRequest (cache : PingRequestCache) (cSock : Nat) : Bool :=
  decide (cSock ∈ cache.requestedCandidates)

/-- Model of `PingRequestCache.is_complete`:
`len(received_candidates) == len(requested_candidates)`. -/
def isComplete (cache : PingRequestCache) : Bool :=
  decide (cache.receivedCandidates.card = cache.requestedCandidates.length)

/-- Model of `PingRequestCache.on_success`: record the pong sender if it was
requested; report completeness of the updated cache. -/
def onSuccess (cache : PingRequestCache) (cSock : Nat) : PingRequestCache × Bool :=
  let cache' :=
    if didRequest cache cSock then
      { cache with receivedCandidates := insert cSock cache.receivedCandidates }
    else cache
  (cache', isComplete cache')

/-- Model of `on_pong` for one message: the updated cache and whether the entry is
popped from the request cache (`if request.on_success(...): pop`). -/
def on_pong (cache : PingRequestCache) (cSock : Nat) : PingRequestCache × Bool :=
  onSuccess cache cSock

/-- Model of `PingRequestCache.on_timeout`: remove every requested candidate not in
`received_candidates` from `taste_buddies`, in order. -/
def pingOnTimeout (pingTimeout now : Int) (cache : PingRequestCache)
    (tbs : List ActualTasteBuddy) : List ActualTasteBuddy :=
  cache.requestedCandidates.foldl
    (fun acc cSock =>
      if cSock ∈ cache.receivedCandidates then acc else removeTasteBuddy pingTimeout now acc cSock)
    tbs

/-- Model of `PossibleTasteBuddy`: a third party advertised in a similarity
response.  `received_from` is modelled by its socket address; equality
between possible buddies is `candidate_mid` equality
(`PossibleTasteBuddy.__eq__`). -/
structure PossibleTasteBuddy where
  overlap : Nat
  preferences : Finset Nat
  timestamp : Int
  candidateMid : Nat
  receivedFromSock : Nat
deriving DecidableEq

/-- Model of `new_possible.update_overlap(possible, self.compute_overlap)`: the *new*
entry unions in the old preferences and recomputes its overlap against
`my_preferences()`. -/
def updateOverlapPTB (myPreferences : List Nat) (newP oldP : PossibleTasteBuddy) :
    PossibleTasteBuddy :=
  { newP with
    preferences := newP.preferences ∪ oldP.preferences
    overlap := computeOverlapSet myPreferences (newP.preferences ∪ oldP.preferences) }

/-- Model of `possibles.remove(new_possible)`: delete the first entry with the same
`candidate_mid` (`PossibleTasteBuddy.__eq__`). -/
def removeFirstMidPTB : List PossibleTasteBuddy → Nat → List PossibleTasteBuddy
  | [], _ => []
  | p :: rest, m => if p.candidateMid = m then rest else p :: removeFirstMidPTB rest m

/-- The inner `for i, possible in enumerate(self.possible_taste_buddies)`
loop: on the first MID match, merge and replace in place (`some` result);
`none` when no entry matches. -/
def mergePTBFirst (myPreferences : List Nat) :
    List PossibleTasteBuddy → PossibleTasteBuddy → Option (List PossibleTasteBuddy)
  | [], _ => none
  | p :: rest, n =>
    if p.candidateMid = n.candidateMid then some (updateOverlapPTB myPreferences n p :: rest)
    else
      match mergePTBFirst myPreferences rest n with
      | some rest' => some (p :: rest')
      | none => none

/-- The mutable state of a `DiscoveryCommunity`: the confirmed and the
possible taste buddies. -/
structure DState where
  tbs : List ActualTasteBuddy
  ptbs : List PossibleTasteBuddy
deriving DecidableEq

/-- Whether `is_taste_buddy_mid(m)` returns an entry: some yielded (fresh,
nonzero-overlap) buddy has MID `m`. -/
def freshNonzeroMid (pingTimeout now : Int) (tbs : List ActualTasteBuddy) (m : Nat) : Bool :=
  (yieldTasteBuddies pingTimeout now none tbs).2.any (fun tb => m == tb.candidateMid)

/-- The `for new_possible in possibles:` loop of
`add_possible_taste_buddies`, with CPython iterator semantics: when an
element is dropped (already a confirmed buddy, or the local member) it is
removed from the iterated list, which skips the following element.  Each
iteration calls `is_taste_buddy_mid`, pruning stale confirmed buddies as a
side effect. -/
def addPossibleGo (myPreferences : List Nat) (myMid : Nat) (pingTimeout now : Int) :
    Nat → DState → List PossibleTasteBuddy → Nat → DState
  | 0, s, _, _ => s
  | fuel + 1, s, possibles, i =>
    if h : i < possibles.length then
      let s1 : DState := { s with tbs := (isTasteBuddyMid pingTimeout now s.tbs possibles[i].candidateMid).1 }
      if ((isTasteBuddyMid pingTimeout now s.tbs possibles[i].candidateMid).2).isSome
          || (possibles[i].candidateMid == myMid) then
        addPossibleGo myPreferences myMid pingTimeout now fuel s1
          (removeFirstMidPTB possibles possibles[i].candidateMid) (i + 1)
      else
        match mergePTBFirst myPreferences s1.ptbs possibles[i] with
        | some ptbs' =>
          addPossibleGo myPreferences myMid pingTimeout now fuel { s1 with ptbs := ptbs' }
            possibles (i + 1)
        | none =>
          addPossibleGo myPreferences myMid pingTimeout now fuel
            { s1 with ptbs := s1.ptbs ++ [possibles[i]] } possibles (i + 1)
    else s

/-- Model of `DiscoveryCommunity.add_possible_taste_buddies`: run the loop, then sort
the possible buddies descending by overlap. -/
def add_possible_taste_buddies (myPreferences : List Nat) (myMid : Nat) (pingTimeout now : Int)
    (s : DState) (possibles : List PossibleTasteBuddy) : DState :=
  let s' := addPossibleGo myPreferences myMid pingTimeout now possibles.length s possibles 0
  { s' with ptbs := sortOverlapDesc (fun p => p.overlap) s'.ptbs }

/-- The `for i in range(len(self.possible_taste_buddies) - 1, -1, -1)` loop
of `clean_possible_taste_buddies`, popping stale entries and entries whose
MID is now a confirmed buddy.  The argument is one past the next index to
visit; popping only affects indices above the ones still to be visited. -/
def cleanPossibleGo (pingTimeout now : Int) : Nat → DState → DState
  | 0, s => s
  | i + 1, s =>
    if h : i < s.ptbs.length then
      if decide (timeRemaining pingTimeout now s.ptbs[i].timestamp = 0)
          || ((isTasteBuddyMid pingTimeout now s.tbs s.ptbs[i].candidateMid).2).isSome then
        cleanPossibleGo pingTimeout now i
          ⟨(isTasteBuddyMid pingTimeout now s.tbs s.ptbs[i].candidateMid).1, s.ptbs.eraseIdx i⟩
      else
        cleanPossibleGo pingTimeout now i
          ⟨(isTasteBuddyMid pingTimeout now s.tbs s.ptbs[i].candidateMid).1, s.ptbs⟩
    else cleanPossibleGo pingTimeout now i s

/-- Model of `DiscoveryCommunity.clean_possible_taste_buddies`. -/
def clean_possible_taste_buddies (pingTimeout now : Int) (s : DState) : DState :=
  cleanPossibleGo pingTimeout now s.ptbs.length s

/-- Model of `DiscoveryCommunity.get_most_similar(candidate)`: purge, then pop the
head possible buddy if any remains, returning `(received_from, MID)`;
otherwise `(candidate, None)`. -/
def get_most_similar (pingTimeout now : Int) (cSock : Nat) (s : DState) :
    (Nat × Option Nat) × DState :=
  match (clean_possible_taste_buddies pingTimeout now s).ptbs with
  | p :: rest =>
    ((p.receivedFromSock, some p.candidateMid),
      ⟨(clean_possible_taste_buddies pingTimeout now s).tbs, rest⟩)
  | [] => ((cSock, none), clean_possible_taste_buddies pingTimeout now s)

/-- State effect of `on_similarity_request` for one message: create the
sender's `ActualTasteBuddy` (overlap `compute_overlap(his_preferences)`)
and feed it to `add_taste_buddies`. -/
def on_similarity_request_state (myPreferences : List Nat) (now : Int)
    (senderSock senderMid : Nat) (hisPreferences : List Nat) (s : DState) : DState :=
  { s with
    tbs := add_taste_buddies myPreferences s.tbs
      [⟨compute_overlap myPreferences hisPreferences none, hisPreferences.toFinset,
        senderSock, now, senderMid⟩] }

/-- State effect of `on_similarity_response` for one message: add the
responder as a confirmed buddy, decode each `(mid, bitfield)` entry into a
`PossibleTasteBuddy` against the original request preference list, add them,
then run `get_most_similar(message.candidate)` (which cleans and may pop the
head). -/
def on_similarity_response_state (myPreferences : List Nat) (myMid : Nat) (pingTimeout now : Int)
    (senderSock senderMid : Nat) (hisPreferences : List Nat)
    (originalList : List Nat) (tbOverlap : List (Nat × Nat)) (s : DState) : DState :=
  let s1 : DState :=
    { s with
      tbs := add_taste_buddies myPreferences s.tbs
        [⟨(myPreferences.toFinset ∩ hisPreferences.toFinset).card, hisPreferences.toFinset,
          senderSock, now, senderMid⟩] }
  let possibles := tbOverlap.map (fun pair =>
    (⟨(decodeTbPreferences originalList pair.2).card, decodeTbPreferences originalList pair.2,
      now, pair.1, senderSock⟩ : PossibleTasteBuddy))
  let s2 := add_possible_taste_buddies myPreferences myMid pingTimeout now s1 possibles
  (get_most_similar pingTimeout now senderSock s2).2

/-- States of a `DiscoveryCommunity` reachable by sequences of the
operations cited by the spec.  `my_preferences()` and `time()` are
recomputed at each call, so they are per-step arguments; the member MID and
`PING_TIMEOUT` are fixed. -/
inductive Reachable (myMid : Nat) (pingTimeout : Int) : DState → Prop where
  | init : Reachable myMid pingTimeout ⟨[], []⟩
  | addTB (myPreferences : List Nat) (new : List ActualTasteBuddy) (s : DState) :
      Reachable myMid pingTimeout s →
      Reachable myMid pingTimeout { s with tbs := add_taste_buddies myPreferences s.tbs new }
  | addPossible (myPreferences : List Nat) (now : Int) (possibles : List PossibleTasteBuddy)
      (s : DState) :
      Reachable myMid pingTimeout s →
      Reachable myMid pingTimeout
        (add_possible_taste_buddies myPreferences myMid pingTimeout now s possibles)
  | simRequest (myPreferences : List Nat) (now : Int) (senderSock senderMid : Nat)
      (hisPreferences : List Nat) (s : DState) :
      Reachable myMid pingTimeout s →
      Reachable myMid pingTimeout
        (on_similarity_request_state myPreferences now senderSock senderMid hisPreferences s)
  | simResponse (myPreferences : List Nat) (now : Int) (senderSock senderMid : Nat)
      (hisPreferences originalList : List Nat) (tbOverlap : List (Nat × Nat)) (s : DState) :
      Reachable myMid pingTimeout s →
      Reachable myMid pingTimeout
        (on_similarity_response_state myPreferences myMid pingTimeout now senderSock senderMid
          hisPreferences originalList tbOverlap s)
  | clean (now : Int) (s : DState) :
      Reachable myMid pingTimeout s →
      Reachable myMid pingTimeout (clean_possible_taste_buddies pingTimeout now s)
  | mostSimilar (now : Int) (cSock : Nat) (s : DState) :
      Reachable myMid pingTimeout s →
      Reachable myMid pingTimeout (get_most_similar pingTimeout now cSock s).2
  | pingTimeoutFires (now : Int) (cache : PingRequestCache) (s : DState) :
      Reachable myMid pingTimeout s →
      Reachable myMid pingTimeout { s with tbs := pingOnTimeout pingTimeout now cache s.tbs }

/-- The keep condition of `clean_possible_taste_buddies`: neither stale nor
the MID of a currently yielded (fresh, nonzero-overlap) confirmed buddy. -/
def ptbKeep (pingTimeout now : Int) (tbs : List ActualTasteBuddy) (p : PossibleTasteBuddy) :
    Bool :=
  !(decide (timeRemaining pingTimeout now p.timestamp = 0)
    || freshNonzeroMid pingTimeout now tbs p.candidateMid)

/-- A framework candidate as seen by
`dispersy_get_introduce_candidate`: its socket address and the member its
`get_member()` reports (`none` when it has no associated member). -/
structure CandidateModel where
  sockAddr : Nat
  member : Option Nat
deriving DecidableEq

/-- Model of `del self.requested_introductions[mid]` on an association-list model of
the dictionary. -/
def eraseKeyFirst : List (Nat × Nat) → Nat → List (Nat × Nat)
  | [], _ => []
  | kv :: rest, k => if kv.1 = k then rest else kv :: eraseKeyFirst rest k

/-- Model of `DiscoveryCommunity.dispersy_get_introduce_candidate(exclude_candidate)`.
`requested_introductions` maps MIDs to stored introduction targets
(socket-address tokens); `frameworkDefault` models the result of the
superclass fallback.  The first statement evaluates
`exclude_candidate.get_member().mid`, which raises `AttributeError` when
`get_member()` is `None`. -/
def dispersy_get_introduce_candidate (requestedIntroductions : List (Nat × Nat))
    (frameworkDefault : Option Nat) (excludeCandidate : Option CandidateModel) :
    Except String (Option Nat × List (Nat × Nat)) :=
  match excludeCandidate with
  | some c =>
    match c.member with
    | none => .error "AttributeError"
    | some mid =>
      match requestedIntroductions.lookup mid with
      | some target => .ok (some target, eraseKeyFirst requestedIntroductions mid)
      | none => .ok (frameworkDefault, requestedIntroductions)
  | none => .ok (frameworkDefault, requestedIntroductions)

/-- The three kinds of overlay a tracker process hosts. -/
inductive CommunityKind where
  | discovery
  | tracker
  | hardKilled
deriving DecidableEq

/-- A tracker-hosted overlay: its kind, strike counter, and whether
`dispersy_yield_verified_candidates()` currently yields anything. -/
structure CommunityModel where
  kind : CommunityKind
  strikes : Nat
  hasVerifiedCandidate : Bool
deriving DecidableEq

/-- Model of `update_strikes(now)`: `TrackerCommunity` resets the counter to 0 when a
verified candidate exists and increments it otherwise;
`TrackerHardKilledCommunity` always increments.  (`DiscoveryCommunity` has
no `update_strikes`; `is_active` returns before calling it.) -/
def update_strikes (c : CommunityModel) : CommunityModel :=
  match c.kind with
  | .tracker =>
    if c.hasVerifiedCandidate then { c with strikes := 0 }
    else { c with strikes := c.strikes + 1 }
  | _ => { c with strikes := c.strikes + 1 }

/-- Model of `is_active(community, now)` from
`TrackerDispersy.unload_inactive_communities`: a `DiscoveryCommunity` is
always active; any other overlay is active iff its updated strike count is
below 3. -/
def is_active (c : CommunityModel) : CommunityModel × Bool :=
  match c.kind with
  | .discovery => (c, true)
  | _ => (update_strikes c, decide ((update_strikes c).strikes < 3))

/-- Model of `TrackerDispersy.unload_inactive_communities`: evaluate `is_active` on
every community, unload the inactive ones; the remaining communities carry
their updated strike counters. -/
def unload_inactive_communities (cs : List CommunityModel) : List CommunityModel :=
  (cs.map is_active).filterMap (fun pair => if pair.2 then some pair.1 else none)

/-- Python `line.split()` (no separator): split on runs of whitespace,
discarding empty fields.  `acc` holds the current field reversed. -/
def pySplitGo : List Char → List Char → List (List Char)
  | [], acc => if acc.isEmpty then [] else [acc.reverse]
  | c :: rest, acc =>
    if c.isWhitespace then
      if acc.isEmpty then pySplitGo rest [] else acc.reverse :: pySplitGo rest []
    else pySplitGo rest (c :: acc)

/-- Model of `line.split()` on a line modelled as a character list. -/
def pySplit (line : List Char) : List (List Char) := pySplitGo line []

/-- Model of `line.startswith("#")`. -/
def startsWithHash : List Char → Bool
  | '#' :: _ => true
  | _ => false

/-- The value of a hexadecimal digit accepted by Python 2
`str.decode("HEX")`. -/
def hexDigitValue (c : Char) : Option Nat :=
  if '0' ≤ c ∧ c ≤ '9' then some (c.toNat - '0'.toNat)
  else if 'a' ≤ c ∧ c ≤ 'f' then some (c.toNat - 'a'.toNat + 10)
  else if 'A' ≤ c ∧ c ≤ 'F' then some (c.toNat - 'A'.toNat + 10)
  else none

/-- Decode consecutive hex-digit pairs into bytes; any non-hex character
raises. -/
def hexPairsGo : List Char → Except String (List Nat)
  | [] => .ok []
  | a :: b :: rest =>
    match hexDigitValue a, hexDigitValue b with
    | some x, some y =>
      match hexPairsGo rest with
      | .ok bytes => .ok ((16 * x + y) :: bytes)
      | .error e => .error e
    | _, _ => .error "TypeError: Non-hexadecimal digit found"
  | [_] => .error "TypeError: Odd-length string"

/-- Python 2 `packet.decode("HEX")`: odd length or a non-hex digit raises
`TypeError`. -/
def hexDecodeChars (l : List Char) : Except String (List Nat) :=
  if l.length % 2 = 1 then .error "TypeError: Odd-length string" else hexPairsGo l

/-- One non-comment line of `persistent-storage.data`:
`_, packet = line.split()` (raises `ValueError` unless exactly two fields)
followed by `packet.decode("HEX")`. -/
def parseStorageLine (line : List Char) : Except String (List Nat) :=
  match pySplit line with
  | [_, packet] => hexDecodeChars packet
  | _ => .error "ValueError: unpacking"

/-- Left-to-right effectful map over `Except`: the first raising element
aborts the whole list comprehension with its exception. -/
def exceptMapList {α β : Type} (f : α → Except String β) : List α → Except String (List β)
  | [] => .ok []
  | a :: rest =>
    match f a with
    | .error e => .error e
    | .ok b =>
      match exceptMapList f rest with
      | .error e => .error e
      | .ok bs => .ok (b :: bs)

/-- The packet list comprehension of
`TrackerDispersy._load_persistent_storage`: parse every non-comment line in
file order; the first malformed line aborts the comprehension. -/
def parseStoragePackets (lines : List (List Char)) : Except String (List (List Nat)) :=
  exceptMapList parseStorageLine (lines.filter (fun l => !startsWithHash l))

/-- Model of `TrackerDispersy._load_persistent_storage`.  `none` models an `IOError`
opening the file (caught: nothing is replayed and startup proceeds).  On
success the result lists the packets handed to `on_incoming_packets` in
replay order — the reverse of file order — each with `cache=False` and a
`LoopbackCandidate` sender; exceptions during packet *processing* are
caught by the bare `except` and logged, so they do not affect the result.
A parse error escapes the function (only `IOError` is caught there) and
aborts startup. -/
def loadPersistentStorage (file : Option (List (List Char))) :
    Except String (List (List Nat)) :=
  match file with
  | none => .ok []
  | some lines =>
    match parseStoragePackets lines with
    | .error e => .error e
    | .ok packets => .ok packets.reverse

lemma bitfieldSum_lt (p : Nat → Bool) : ∀ n, bitfieldSum p n < 2 ^ n := by
  intro n
  induction n with
  | zero => simp [bitfieldSum]
  | succ n ih =>
    have hexp : (2 : Nat) ^ (n + 1) = 2 ^ n + 2 ^ n := by rw [Nat.pow_succ]; omega
    by_cases hp : p n
    · have hsum : bitfieldSum p (n + 1) = bitfieldSum p n + 2 ^ n := by
        simp [bitfieldSum, List.range_succ, List.filter_append, hp]
      omega
    · have hsum : bitfieldSum p (n + 1) = bitfieldSum p n := by
        simp [bitfieldSum, List.range_succ, List.filter_append, hp]
      omega

lemma testBit_add_two_pow (x n j : Nat) (hx : x < 2 ^ n) :
    (x + 2 ^ n).testBit j = if j = n then true else x.testBit j := by
  rcases Nat.lt_trichotomy j n with hlt | heq | hgt
  · have hne : j ≠ n := by omega
    simp only [hne, if_false]
    rw [Nat.testBit_to_div_mod, Nat.testBit_to_div_mod]
    have h2 : (2 : Nat) ^ n = 2 ^ (n - j) * 2 ^ j := by
      rw [← Nat.pow_add]
      congr 1
      omega
    rw [h2, Nat.add_mul_div_right _ _ (Nat.two_pow_pos j)]
    have hmod : (2 : Nat) ^ (n - j) % 2 = 0 := by
      rcases Nat.exists_eq_succ_of_ne_zero (show n - j ≠ 0 by omega) with ⟨k, hk⟩
      rw [hk, Nat.pow_succ, Nat.mul_mod_left]
    simp only [decide_eq_decide]
    omega
  · subst heq
    have hdiv : (x + 2 ^ j) / 2 ^ j = 1 := by
      rw [Nat.add_div_right _ (Nat.two_pow_pos j), Nat.div_eq_of_lt hx]
    simp [Nat.testBit_to_div_mod, hdiv]
  · have hne : j ≠ n := by omega
    simp only [hne, if_false]
    have hmono : (2 : Nat) ^ (n + 1) ≤ 2 ^ j := Nat.pow_le_pow_right (by omega) (by omega)
    have hexp : (2 : Nat) ^ (n + 1) = 2 ^ n + 2 ^ n := by rw [Nat.pow_succ]; omega
    have hxj : x < 2 ^ j := by omega
    rw [Nat.testBit_eq_false_of_lt (show x + 2 ^ n < 2 ^ j by omega),
      Nat.testBit_eq_false_of_lt hxj]

lemma bitfieldSum_testBit (p : Nat → Bool) :
    ∀ n j, (bitfieldSum p n).testBit j = (decide (j < n) && p j) := by
  intro n
  induction n with
  | zero => intro j; simp [bitfieldSum]
  | succ n ih =>
    intro j
    by_cases hp : p n
    · have hsum : bitfieldSum p (n + 1) = bitfieldSum p n + 2 ^ n := by
        simp [bitfieldSum, List.range_succ, List.filter_append, hp]
      rw [hsum, testBit_add_two_pow _ _ _ (bitfieldSum_lt p n)]
      by_cases hj : j = n
      · subst hj
        simp [hp]
      · have hiff : (j < n + 1) ↔ (j < n) := by omega
        simp [hj, ih j, hiff]
    · have hsum : bitfieldSum p (n + 1) = bitfieldSum p n := by
        simp [bitfieldSum, List.range_succ, List.filter_append, hp]
      rw [hsum, ih j]
      by_cases hj : j = n
      · subst hj
        simp [hp]
      · have hiff : (j < n + 1) ↔ (j < n) := by omega
        simp [hiff]

lemma decide_and_two_pow_ne (bf i : Nat) : decide (bf &&& 2 ^ i ≠ 0) = bf.testBit i := by
  rw [Nat.and_two_pow]
  cases h : bf.testBit i
  · simp
  · simp [(Nat.two_pow_pos i).ne']

/-- C1.  Round-trip of the per-buddy bitfield: decoding (as in
`on_similarity_response`) the bitfield encoded in `on_similarity_request`
from the original request preference list `R` against buddy preference set
`B` yields exactly `{R[i] | i < min(|R|, 32), R[i] ∈ B}`; both sides cap
iteration at `min(|R|, 32)` bits by construction. -/
theorem similarity_bitfield_roundtrip (R : List Nat) (B : Finset Nat) :
    decodeTbPreferences R (similarityBitfield R B) =
      (((List.range (min R.length (4 * 8))).filter
          (fun index => decide (R.getD index 0 ∈ B))).map
        (fun index => R.getD index 0)).toFinset := by
  have hfilters : (List.range (min R.length (4 * 8))).filter
        (fun index => decide (similarityBitfield R B &&& 2 ^ index ≠ 0))
      = (List.range (min R.length (4 * 8))).filter
        (fun index => decide (R.getD index 0 ∈ B)) := by
    apply List.filter_congr
    intro i hi
    have hi' : i < min R.length (4 * 8) := List.mem_range.mp hi
    rw [decide_and_two_pow_ne,
      show similarityBitfield R B
        = bitfieldSum (fun idx => decide (R.getD idx 0 ∈ B)) (min R.length (4 * 8)) from rfl,
      bitfieldSum_testBit]
    simp [hi']
  unfold decodeTbPreferences
  rw [hfilters]

/-- C7 counterexample: with local preferences `[1]`, `compute_overlap [1] []`
uses `my_preferences()` instead of the empty second argument (Python
falsiness of `[]`), so it is neither `|set([1]) ∩ set([])| = 0` nor equal to
`compute_overlap [] [1]`. -/
theorem compute_overlap_empty_arg_cex :
    compute_overlap [1] [1] (some []) ≠ (([1] : List Nat).toFinset ∩ ([] : List Nat).toFinset).card ∧
    compute_overlap [1] [1] (some []) ≠ compute_overlap [1] [] (some [1]) := by
  decide

/-- C7 amended: for every explicit *nonempty* second argument `b`,
`compute_overlap a b = |set(a) ∩ set(b)|`, and for nonempty `a` and `b` the
function is symmetric.  (An empty `b` is falsy in Python and is silently
replaced by `my_preferences()`.) -/
theorem compute_overlap_amended (myPreferences a b : List Nat) (hb : b ≠ []) :
    compute_overlap myPreferences a (some b) = (a.toFinset ∩ b.toFinset).card ∧
    (a ≠ [] → compute_overlap myPreferences a (some b) = compute_overlap myPreferences b (some a)) := by
  refine ⟨by simp [compute_overlap, hb], fun ha => ?_⟩
  simp [compute_overlap, ha, hb, Finset.inter_comm]

/-- Witness for C7 amended at concrete lists. -/
theorem compute_overlap_amended_witness :
    compute_overlap [5] [1, 2] (some [2, 3]) = 1 ∧
    compute_overlap [5] [1, 2] (some [2, 3]) = compute_overlap [5] [2, 3] (some [1, 2]) := by
  have h := compute_overlap_amended [5] [1, 2] [2, 3] (by decide)
  exact ⟨h.1.trans (by decide), h.2 (by decide)⟩

lemma mem_insertOverlapDesc {α : Type} (key : α → Nat) (x z : α) :
    ∀ l : List α, z ∈ insertOverlapDesc key x l ↔ z = x ∨ z ∈ l := by
  intro l
  induction l with
  | nil => simp [insertOverlapDesc]
  | cons y ys ih =>
    by_cases hk : key y < key x
    · simp [insertOverlapDesc, hk, List.mem_cons]
    · simp [insertOverlapDesc, hk, List.mem_cons, ih, or_left_comm]

lemma insertOverlapDesc_pairwise {α : Type} (key : α → Nat) (x : α) :
    ∀ l : List α, l.Pairwise (fun a b => key b ≤ key a) →
      (insertOverlapDesc key x l).Pairwise (fun a b => key b ≤ key a) := by
  intro l
  induction l with
  | nil => simp [insertOverlapDesc]
  | cons y ys ih =>
    intro hp
    rw [List.pairwise_cons] at hp
    by_cases hk : key y < key x
    · simp only [insertOverlapDesc, if_pos hk]
      rw [List.pairwise_cons]
      refine ⟨fun z hz => ?_, List.pairwise_cons.mpr hp⟩
      rcases List.mem_cons.mp hz with rfl | hz'
      · omega
      · have := hp.1 z hz'
        omega
    · simp only [insertOverlapDesc, if_neg hk]
      rw [List.pairwise_cons]
      refine ⟨fun z hz => ?_, ih hp.2⟩
      rcases (mem_insertOverlapDesc key x z ys).mp hz with rfl | hz'
      · omega
      · exact hp.1 z hz'

lemma sortOverlapDesc_pairwise {α : Type} (key : α → Nat) :
    ∀ l : List α, (sortOverlapDesc key l).Pairwise (fun a b => key b ≤ key a) := by
  intro l
  induction l with
  | nil => simp [sortOverlapDesc]
  | cons x xs ih => exact insertOverlapDesc_pairwise key x _ ih

lemma removeFirstSockATB_drop (s : Nat) :
    ∀ (l : List ActualTasteBuddy) (i : Nat),
      (∃ tb ∈ l.take (i + 1), tb.sockAddr = s) →
      (removeFirstSockATB l s).drop (i + 1) = l.drop (i + 2) := by
  intro l
  induction l with
  | nil => intro i h; simp at h
  | cons tb rest ih =>
    intro i h
    by_cases htb : tb.sockAddr = s
    · simp [removeFirstSockATB, htb]
    · rw [show removeFirstSockATB (tb :: rest) s = tb :: removeFirstSockATB rest s by
        simp [removeFirstSockATB, htb]]
      match i with
      | 0 =>
        exfalso
        rcases h with ⟨tb', htb', hs⟩
        have heq : tb' = tb := by simpa using htb'
        subst heq
        exact htb hs
      | k + 1 =>
        have h' : ∃ tb' ∈ rest.take (k + 1), tb'.sockAddr = s := by
          rcases h with ⟨tb', htb', hs⟩
          rcases List.mem_cons.mp (by simpa [List.take_succ_cons] using htb') with rfl | hmem
          · exact absurd hs htb
          · exact ⟨tb', hmem, hs⟩
        simpa [List.drop_succ_cons] using ih k h'

lemma removeFirstSockATB_length_le (s : Nat) :
    ∀ l : List ActualTasteBuddy, (removeFirstSockATB l s).length ≤ l.length := by
  intro l
  induction l with
  | nil => simp [removeFirstSockATB]
  | cons tb rest ih =>
    by_cases htb : tb.sockAddr = s
    · simp [removeFirstSockATB, htb]
    · simp only [removeFirstSockATB, if_neg htb, List.length_cons]
      omega

lemma getElem_mem_take {α : Type} :
    ∀ (l : List α) (i : Nat) (h : i < l.length), l[i] ∈ l.take (i + 1) := by
  intro l
  induction l with
  | nil => intro i h; simp at h
  | cons a rest ih =>
    intro i h
    match i with
    | 0 => simp
    | k + 1 =>
      have := ih k (by simpa using h)
      simp only [List.getElem_cons_succ, List.take_succ_cons, List.mem_cons]
      exact Or.inr this

lemma addTasteBuddiesVisit_cons_pos (myPreferences : List Nat)
    (tbs rest : List ActualTasteBuddy) (n : ActualTasteBuddy)
    (hany : (tbs.any fun tb => tb.sockAddr == n.sockAddr) = true) :
    addTasteBuddiesVisit myPreferences tbs (n :: rest)
      = addTasteBuddiesVisit myPreferences (mergeIntoFirst myPreferences tbs n) (rest.drop 1) := by
  cases rest with
  | nil => simp [addTasteBuddiesVisit, hany]
  | cons b rest' => simp [addTasteBuddiesVisit, hany]

lemma addTasteBuddiesVisit_cons_neg (myPreferences : List Nat)
    (tbs rest : List ActualTasteBuddy) (n : ActualTasteBuddy)
    (hany : ¬(tbs.any fun tb => tb.sockAddr == n.sockAddr) = true) :
    addTasteBuddiesVisit myPreferences tbs (n :: rest)
      = addTasteBuddiesVisit myPreferences (tbs ++ [n]) rest := by
  cases rest with
  | nil => simp [addTasteBuddiesVisit, hany]
  | cons b rest' => simp [addTasteBuddiesVisit, hany]

lemma addTasteBuddiesGo_eq_visit (myPreferences : List Nat) :
    ∀ (fuel : Nat) (tbs new : List ActualTasteBuddy) (i : Nat),
      new.length - i ≤ fuel →
      addTasteBuddiesGo myPreferences fuel tbs new i
        = addTasteBuddiesVisit myPreferences tbs (new.drop i) := by
  intro fuel
  induction fuel with
  | zero =>
    intro tbs new i hfuel
    have hnil : new.drop i = [] := List.drop_eq_nil_of_le (by omega)
    rw [hnil]
    rfl
  | succ fuel ih =>
    intro tbs new i hfuel
    by_cases h : i < new.length
    · have hdrop : new.drop i = new[i] :: new.drop (i + 1) := List.drop_eq_getElem_cons h
      rw [addTasteBuddiesGo, dif_pos h]
      by_cases hany : (tbs.any fun tb => tb.sockAddr == new[i].sockAddr) = true
      · rw [if_pos hany]
        have hex : ∃ tb ∈ new.take (i + 1), tb.sockAddr = new[i].sockAddr :=
          ⟨new[i], getElem_mem_take new i h, rfl⟩
        have hdrop2 : (removeFirstSockATB new new[i].sockAddr).drop (i + 1) = new.drop (i + 2) :=
          removeFirstSockATB_drop _ new i hex
        have hlen := removeFirstSockATB_length_le new[i].sockAddr new
        rw [ih _ _ (i + 1) (by omega), hdrop2]
        conv_rhs => rw [hdrop, addTasteBuddiesVisit_cons_pos myPreferences tbs _ _ hany]
        congr 1
        rw [List.drop_drop]
      · rw [if_neg hany, ih _ _ (i + 1) (by omega)]
        conv_rhs => rw [hdrop, addTasteBuddiesVisit_cons_neg myPreferences tbs _ _ hany]
    · rw [addTasteBuddiesGo, dif_neg h]
      have hnil : new.drop i = [] := List.drop_eq_nil_of_le (by omega)
      rw [hnil]
      rfl

/-- C2 counterexample: in `add_taste_buddies([atbMerged, atbSkipped])` the
first element merges into the existing entry and is removed from the list
being iterated, so CPython's iterator skips `atbSkipped`: it matches no
existing entry yet is *not* appended, refuting the claim as stated. -/
theorem add_taste_buddies_skip_cex :
    (∀ e ∈ [atbExisting], e.sockAddr ≠ atbSkipped.sockAddr) ∧
    atbSkipped ∉ add_taste_buddies [7] [atbExisting] [atbMerged, atbSkipped] := by
  decide

/-- C2 amended: `add_taste_buddies` behaves like the visiting recursion
`addTasteBuddiesVisit` — a visited element with a socket-address match
updates that entry via `update_overlap` and is dropped, a visited element
with no match is appended, but the element immediately following a merged
one is skipped entirely (CPython iterator semantics after `list.remove`) —
and the resulting `taste_buddies` is sorted descending by `overlap`. -/
theorem add_taste_buddies_amended (myPreferences : List Nat) (tbs new : List ActualTasteBuddy) :
    add_taste_buddies myPreferences tbs new
      = sortOverlapDesc (fun tb => tb.overlap) (addTasteBuddiesVisit myPreferences tbs new) ∧
    (add_taste_buddies myPreferences tbs new).Pairwise (fun a b => b.overlap ≤ a.overlap) := by
  constructor
  · unfold add_taste_buddies
    rw [addTasteBuddiesGo_eq_visit myPreferences new.length tbs new 0 (by omega), List.drop_zero]
  · exact sortOverlapDesc_pairwise _ _

lemma mem_removeFirstSockATB_of_ne (s : Nat) :
    ∀ (l : List ActualTasteBuddy) (b : ActualTasteBuddy),
      b ∈ l → b.sockAddr ≠ s → b ∈ removeFirstSockATB l s := by
  intro l
  induction l with
  | nil => intro b h _; simp at h
  | cons a rest ih =>
    intro b hb hne
    by_cases ha : a.sockAddr = s
    · rw [show removeFirstSockATB (a :: rest) s = rest by simp [removeFirstSockATB, ha]]
      rcases List.mem_cons.mp hb with rfl | h'
      · exact absurd ha hne
      · exact h'
    · rw [show removeFirstSockATB (a :: rest) s = a :: removeFirstSockATB rest s by
        simp [removeFirstSockATB, ha]]
      rcases List.mem_cons.mp hb with rfl | h'
      · exact List.mem_cons_self _ _
      · exact List.mem_cons_of_mem _ (ih b h' hne)

lemma removeFirstSockATB_sublist (s : Nat) :
    ∀ l : List ActualTasteBuddy, (removeFirstSockATB l s).Sublist l := by
  intro l
  induction l with
  | nil => simp [removeFirstSockATB]
  | cons a rest ih =>
    by_cases ha : a.sockAddr = s
    · rw [show removeFirstSockATB (a :: rest) s = rest by simp [removeFirstSockATB, ha]]
      exact List.sublist_cons_self a rest
    · rw [show removeFirstSockATB (a :: rest) s = a :: removeFirstSockATB rest s by
        simp [removeFirstSockATB, ha]]
      exact ih.cons₂ a

lemma removeFirstSockATB_no_sock (s : Nat) :
    ∀ l : List ActualTasteBuddy, (l.map (fun tb => tb.sockAddr)).Nodup →
      ∀ y ∈ removeFirstSockATB l s, y.sockAddr ≠ s := by
  intro l
  induction l with
  | nil => intro _ y hy; simp [removeFirstSockATB] at hy
  | cons a rest ih =>
    intro hnodup y hy
    rw [List.map_cons, List.nodup_cons] at hnodup
    by_cases ha : a.sockAddr = s
    · rw [show removeFirstSockATB (a :: rest) s = rest by simp [removeFirstSockATB, ha]] at hy
      intro hys
      exact hnodup.1 (by
        rw [List.mem_map]
        exact ⟨y, hy, by rw [hys, ha]⟩)
    · rw [show removeFirstSockATB (a :: rest) s = a :: removeFirstSockATB rest s by
        simp [removeFirstSockATB, ha]] at hy
      rcases List.mem_cons.mp hy with rfl | hy'
      · exact ha
      · exact ih hnodup.2 y hy'

lemma mem_pruneStaleTbs (pingTimeout now : Int) (tbs : List ActualTasteBuddy)
    (b : ActualTasteBuddy) (hmem : b ∈ tbs)
    (hfresh : timeRemaining pingTimeout now b.timestamp ≠ 0) :
    b ∈ pruneStaleTbs pingTimeout now tbs :=
  List.mem_filter.mpr ⟨hmem, by simpa using hfresh⟩

lemma pruneStaleTbs_subset (pingTimeout now : Int) (tbs : List ActualTasteBuddy)
    (b : ActualTasteBuddy) (h : b ∈ pruneStaleTbs pingTimeout now tbs) : b ∈ tbs :=
  (List.mem_filter.mp h).1

lemma mem_yielded (pingTimeout now : Int) (ignoreSock : Option Nat)
    (tbs : List ActualTasteBuddy) (tb : ActualTasteBuddy)
    (h : tb ∈ (yieldTasteBuddies pingTimeout now ignoreSock tbs).2) :
    tb ∈ pruneStaleTbs pingTimeout now tbs ∧ tb.overlap ≠ 0 := by
  have h' := List.mem_filter.mp h
  refine ⟨h'.1, ?_⟩
  have := h'.2
  simp only [Bool.and_eq_true, decide_eq_true_eq] at this
  exact this.1

/-- C10.  `yield_taste_buddies` never yields a buddy with `overlap == 0`;
consequently `is_taste_buddy_mid` never returns one, `remove_taste_buddy`
and `reset_taste_buddy` leave a fresh zero-overlap buddy `b` untouched in
`taste_buddies`, `b` survives the purge while fresh, and `b` is never
selected by `create_ping_requests`. -/
theorem yield_skips_zero_overlap (pingTimeout pingInterval now : Int) (ignoreSock : Option Nat)
    (tbs : List ActualTasteBuddy) (b : ActualTasteBuddy)
    (hmem : b ∈ tbs) (hzero : b.overlap = 0)
    (hfresh : timeRemaining pingTimeout now b.timestamp ≠ 0)
    (hnodup : (tbs.map (fun tb => tb.sockAddr)).Nodup) :
    (∀ tb ∈ (yieldTasteBuddies pingTimeout now ignoreSock tbs).2, tb.overlap ≠ 0) ∧
    (∀ mid tb, (isTasteBuddyMid pingTimeout now tbs mid).2 = some tb → tb.overlap ≠ 0) ∧
    b ∈ (yieldTasteBuddies pingTimeout now ignoreSock tbs).1 ∧
    b ∈ removeTasteBuddy pingTimeout now tbs b.sockAddr ∧
    b ∈ resetTasteBuddy pingTimeout now tbs b.sockAddr ∧
    b.sockAddr ∉ (createPingRequests pingTimeout pingInterval now tbs).2 := by
  have hinj := List.inj_on_of_nodup_map hnodup
  have hyield : ∀ (ig : Option Nat) (tb : ActualTasteBuddy),
      tb ∈ (yieldTasteBuddies pingTimeout now ig tbs).2 → tb.overlap ≠ 0 :=
    fun ig tb htb => (mem_yielded pingTimeout now ig tbs tb htb).2
  have hfind : ∀ cSock, cSock = b.sockAddr →
      (yieldTasteBuddies pingTimeout now none tbs).2.find? (fun tb => tb.sockAddr == cSock)
        = none := by
    intro cSock hc
    rw [List.find?_eq_none]
    intro x hx hbeq
    have hxs : x.sockAddr = cSock := by simpa using hbeq
    have hx' := mem_yielded pingTimeout now none tbs x hx
    have : x = b := hinj (pruneStaleTbs_subset _ _ _ _ hx'.1) hmem (by rw [hxs, hc])
    exact hx'.2 (this ▸ hzero)
  refine ⟨hyield ignoreSock, ?_, ?_, ?_, ?_, ?_⟩
  · intro mid tb hf
    exact hyield none tb (List.mem_of_find?_eq_some hf)
  · exact mem_pruneStaleTbs pingTimeout now tbs b hmem hfresh
  · rw [show removeTasteBuddy pingTimeout now tbs b.sockAddr
        = (match (yieldTasteBuddies pingTimeout now none tbs).2.find?
            (fun tb => tb.sockAddr == b.sockAddr) with
          | some tb => removeFirstSockATB (yieldTasteBuddies pingTimeout now none tbs).1 tb.sockAddr
          | none => (yieldTasteBuddies pingTimeout now none tbs).1) from rfl,
      hfind b.sockAddr rfl]
    exact mem_pruneStaleTbs pingTimeout now tbs b hmem hfresh
  · rw [show resetTasteBuddy pingTimeout now tbs b.sockAddr
        = (match (yieldTasteBuddies pingTimeout now none tbs).2.find?
            (fun tb => tb.sockAddr == b.sockAddr) with
          | some tb => setTimestampFirstEq (yieldTasteBuddies pingTimeout now none tbs).1 tb now
          | none => (yieldTasteBuddies pingTimeout now none tbs).1) from rfl,
      hfind b.sockAddr rfl]
    exact mem_pruneStaleTbs pingTimeout now tbs b hmem hfresh
  · intro hsel
    rcases List.mem_map.mp hsel with ⟨tb, htb, hts⟩
    have htb' := List.mem_filter.mp htb
    have h1 := mem_yielded pingTimeout now none tbs tb htb'.1
    have : tb = b := hinj (pruneStaleTbs_subset _ _ _ _ h1.1) hmem hts
    exact h1.2 (this ▸ hzero)

/-- Witness for C10 at a concrete fresh zero-overlap buddy. -/
theorem yield_skips_zero_overlap_witness :
    (⟨0, ∅, 5, 100, 21⟩ : ActualTasteBuddy) ∈
      removeTasteBuddy 10 100 [⟨0, ∅, 5, 100, 21⟩] 5 :=
  (yield_skips_zero_overlap 10 3 100 none [⟨0, ∅, 5, 100, 21⟩] ⟨0, ∅, 5, 100, 21⟩
    (by decide) (by decide) (by decide) (by decide)).2.2.2.1

lemma removeTasteBuddy_match_shape (pingTimeout now : Int) (tbs : List ActualTasteBuddy)
    (s : Nat) :
    removeTasteBuddy pingTimeout now tbs s
      = (match (yieldTasteBuddies pingTimeout now none tbs).2.find?
          (fun tb => tb.sockAddr == s) with
        | some tb => removeFirstSockATB (yieldTasteBuddies pingTimeout now none tbs).1 tb.sockAddr
        | none => (yieldTasteBuddies pingTimeout now none tbs).1) := rfl

lemma removeTasteBuddy_subset (pingTimeout now : Int) (tbs : List ActualTasteBuddy) (s : Nat) :
    ∀ x ∈ removeTasteBuddy pingTimeout now tbs s, x ∈ tbs := by
  intro x hx
  rw [removeTasteBuddy_match_shape] at hx
  cases hf : (yieldTasteBuddies pingTimeout now none tbs).2.find? (fun tb => tb.sockAddr == s) with
  | none =>
    rw [hf] at hx
    exact pruneStaleTbs_subset _ _ _ _ hx
  | some tb =>
    rw [hf] at hx
    exact pruneStaleTbs_subset _ _ _ _ ((removeFirstSockATB_sublist tb.sockAddr _).subset hx)

lemma removeTasteBuddy_nodup (pingTimeout now : Int) (tbs : List ActualTasteBuddy) (s : Nat)
    (hnodup : (tbs.map (fun tb => tb.sockAddr)).Nodup) :
    ((removeTasteBuddy pingTimeout now tbs s).map (fun tb => tb.sockAddr)).Nodup := by
  have hpr : (pruneStaleTbs pingTimeout now tbs).Sublist tbs := List.filter_sublist tbs
  rw [removeTasteBuddy_match_shape]
  cases hf : (yieldTasteBuddies pingTimeout now none tbs).2.find? (fun tb => tb.sockAddr == s) with
  | none => exact (hpr.map (fun tb => tb.sockAddr)).nodup hnodup
  | some tb =>
    exact (((removeFirstSockATB_sublist tb.sockAddr _).trans hpr).map
      (fun tb => tb.sockAddr)).nodup hnodup

lemma removeTasteBuddy_mem_of_ne (pingTimeout now : Int) (tbs : List ActualTasteBuddy)
    (s : Nat) (b : ActualTasteBuddy) (hmem : b ∈ tbs)
    (hfresh : timeRemaining pingTimeout now b.timestamp ≠ 0)
    (hne : b.sockAddr ≠ s) :
    b ∈ removeTasteBuddy pingTimeout now tbs s := by
  rw [removeTasteBuddy_match_shape]
  cases hf : (yieldTasteBuddies pingTimeout now none tbs).2.find? (fun tb => tb.sockAddr == s) with
  | none => exact mem_pruneStaleTbs pingTimeout now tbs b hmem hfresh
  | some tb =>
    have hts : tb.sockAddr = s := by simpa using List.find?_some hf
    exact mem_removeFirstSockATB_of_ne _ _ b
      (mem_pruneStaleTbs pingTimeout now tbs b hmem hfresh) (by rw [hts]; exact hne)

lemma removeTasteBuddy_kills (pingTimeout now : Int) (tbs : List ActualTasteBuddy)
    (b : ActualTasteBuddy) (hnodup : (tbs.map (fun tb => tb.sockAddr)).Nodup)
    (hmem : b ∈ tbs) (hover : b.overlap ≠ 0)
    (hfresh : timeRemaining pingTimeout now b.timestamp ≠ 0) :
    ∀ x ∈ removeTasteBuddy pingTimeout now tbs b.sockAddr, x.sockAddr ≠ b.sockAddr := by
  have hb_yield : b ∈ (yieldTasteBuddies pingTimeout now none tbs).2 := by
    refine List.mem_filter.mpr ⟨mem_pruneStaleTbs pingTimeout now tbs b hmem hfresh, ?_⟩
    simp [hover]
  rw [removeTasteBuddy_match_shape]
  cases hf : (yieldTasteBuddies pingTimeout now none tbs).2.find?
      (fun tb => tb.sockAddr == b.sockAddr) with
  | none =>
    exact absurd (by simp : (fun tb => tb.sockAddr == b.sockAddr) b = true)
      (List.find?_eq_none.mp hf b hb_yield)
  | some tb =>
    have hts : tb.sockAddr = b.sockAddr := by simpa using List.find?_some hf
    intro x hx
    have hnp : ((pruneStaleTbs pingTimeout now tbs).map (fun tb => tb.sockAddr)).Nodup :=
      ((List.filter_sublist tbs).map (fun tb => tb.sockAddr)).nodup hnodup
    have := removeFirstSockATB_no_sock tb.sockAddr _ hnp x hx
    rw [hts] at this
    exact this

lemma pingFold_subset (pingTimeout now : Int) (recv : Finset Nat) :
    ∀ (reqs : List Nat) (tbs : List ActualTasteBuddy) (x : ActualTasteBuddy),
      x ∈ reqs.foldl
        (fun acc cSock =>
          if cSock ∈ recv then acc else removeTasteBuddy pingTimeout now acc cSock) tbs →
      x ∈ tbs := by
  intro reqs
  induction reqs with
  | nil => intro tbs x hx; simpa using hx
  | cons s rest ih =>
    intro tbs x hx
    rw [List.foldl_cons] at hx
    by_cases hs : s ∈ recv
    · rw [if_pos hs] at hx
      exact ih tbs x hx
    · rw [if_neg hs] at hx
      exact removeTasteBuddy_subset pingTimeout now tbs s x (ih _ x hx)

lemma pingFold_kills (pingTimeout now : Int) (recv : Finset Nat) :
    ∀ (reqs : List Nat) (tbs : List ActualTasteBuddy) (b : ActualTasteBuddy),
      (tbs.map (fun tb => tb.sockAddr)).Nodup → b ∈ tbs → b.overlap ≠ 0 →
      timeRemaining pingTimeout now b.timestamp ≠ 0 →
      b.sockAddr ∈ reqs → b.sockAddr ∉ recv →
      b ∉ reqs.foldl
        (fun acc cSock =>
          if cSock ∈ recv then acc else removeTasteBuddy pingTimeout now acc cSock) tbs := by
  intro reqs
  induction reqs with
  | nil => intro tbs b _ _ _ _ hreq _; simp at hreq
  | cons s rest ih =>
    intro tbs b hn hb hov hf hreq hrecv
    rw [List.foldl_cons]
    by_cases hs : s ∈ recv
    · rw [if_pos hs]
      have hbs : b.sockAddr ≠ s := fun h => hrecv (h ▸ hs)
      exact ih tbs b hn hb hov hf (by
        rcases List.mem_cons.mp hreq with h | h
        · exact absurd h hbs
        · exact h) hrecv
    · rw [if_neg hs]
      by_cases hbs : b.sockAddr = s
      · intro hmem_final
        have hx := pingFold_subset pingTimeout now recv rest _ b hmem_final
        rw [← hbs] at hx
        exact removeTasteBuddy_kills pingTimeout now tbs b hn hb hov hf b hx rfl
      · exact ih (removeTasteBuddy pingTimeout now tbs s) b
          (removeTasteBuddy_nodup pingTimeout now tbs s hn)
          (removeTasteBuddy_mem_of_ne pingTimeout now tbs s b hb hf hbs) hov hf
          (by
            rcases List.mem_cons.mp hreq with h | h
            · exact absurd h hbs
            · exact h) hrecv

lemma pingFold_preserves (pingTimeout now : Int) (recv : Finset Nat) :
    ∀ (reqs : List Nat) (tbs : List ActualTasteBuddy) (b : ActualTasteBuddy),
      b ∈ tbs → timeRemaining pingTimeout now b.timestamp ≠ 0 →
      (b.sockAddr ∉ reqs ∨ b.sockAddr ∈ recv) →
      b ∈ reqs.foldl
        (fun acc cSock =>
          if cSock ∈ recv then acc else removeTasteBuddy pingTimeout now acc cSock) tbs := by
  intro reqs
  induction reqs with
  | nil => intro tbs b hb _ _; simpa using hb
  | cons s rest ih =>
    intro tbs b hb hf hdisj
    rw [List.foldl_cons]
    by_cases hs : s ∈ recv
    · rw [if_pos hs]
      exact ih tbs b hb hf (by
        rcases hdisj with h | h
        · exact Or.inl (fun hmem => h (List.mem_cons_of_mem _ hmem))
        · exact Or.inr h)
    · rw [if_neg hs]
      have hbs : b.sockAddr ≠ s := by
        rcases hdisj with h | h
        · exact fun heq => h (heq ▸ List.mem_cons_self _ _)
        · exact fun heq => hs (heq ▸ h)
      exact ih (removeTasteBuddy pingTimeout now tbs s) b
        (removeTasteBuddy_mem_of_ne pingTimeout now tbs s b hb hf hbs) hf
        (by
          rcases hdisj with h | h
          · exact Or.inl (fun hmem => h (List.mem_cons_of_mem _ hmem))
          · exact Or.inr h)

/-- C4 counterexample: candidate 5 was requested and never answered with a
pong, yet its taste-buddy entry (fresh, `overlap == 0`) survives
`PingRequestCache.on_timeout`, because `remove_taste_buddy` iterates
`yield_taste_buddies`, which skips zero-overlap entries.  This refutes
"exactly the requested candidates from which no pong was received are
removed". -/
theorem ping_timeout_zero_overlap_cex :
    ((5 : Nat) ∈ ([5] : List Nat) ∧ (5 : Nat) ∉ (∅ : Finset Nat)) ∧
    (⟨0, ∅, 5, 100, 21⟩ : ActualTasteBuddy) ∈
      pingOnTimeout 10 100 ⟨[5], ∅⟩ [⟨0, ∅, 5, 100, 21⟩] := by
  decide

/-- C4 amended: when a pong has arrived from every requested candidate the
pong handler pops the cache entry; on timeout, every requested candidate
from which no pong was received has its *fresh, nonzero-overlap*
taste-buddy entry removed (a zero-overlap entry is invisible to
`yield_taste_buddies` and survives), and fresh entries of candidates that
did respond — or were never requested — are not removed. -/
theorem ping_request_cache_amended (pingTimeout now : Int) (cache : PingRequestCache)
    (tbs : List ActualTasteBuddy) (pongSock : Nat)
    (hnodup : (tbs.map (fun tb => tb.sockAddr)).Nodup) :
    (cache.requestedCandidates.Nodup →
      cache.receivedCandidates ⊆ cache.requestedCandidates.toFinset →
      (∀ r ∈ cache.requestedCandidates, r ∈ (on_pong cache pongSock).1.receivedCandidates) →
      (on_pong cache pongSock).2 = true) ∧
    (∀ b ∈ tbs, b.overlap ≠ 0 → timeRemaining pingTimeout now b.timestamp ≠ 0 →
      b.sockAddr ∈ cache.requestedCandidates → b.sockAddr ∉ cache.receivedCandidates →
      b ∉ pingOnTimeout pingTimeout now cache tbs) ∧
    (∀ b ∈ tbs, timeRemaining pingTimeout now b.timestamp ≠ 0 →
      (b.sockAddr ∉ cache.requestedCandidates ∨ b.sockAddr ∈ cache.receivedCandidates) →
      b ∈ pingOnTimeout pingTimeout now cache tbs) := by
  refine ⟨?_, ?_, ?_⟩
  · intro hreqN hsub hcov
    have hreqEq : (on_pong cache pongSock).1.requestedCandidates = cache.requestedCandidates := by
      simp only [on_pong, onSuccess]
      by_cases hd : didRequest cache pongSock <;> simp [hd]
    have hsub' : (on_pong cache pongSock).1.receivedCandidates ⊆
        cache.requestedCandidates.toFinset := by
      simp only [on_pong, onSuccess]
      by_cases hd : didRequest cache pongSock
      · simp only [hd, if_true]
        intro x hx
        rcases Finset.mem_insert.mp hx with rfl | hx'
        · exact List.mem_toFinset.mpr (by simpa [didRequest] using hd)
        · exact hsub hx'
      · simp only [hd, if_false]
        exact hsub
    have hset : (on_pong cache pongSock).1.receivedCandidates
        = cache.requestedCandidates.toFinset := by
      apply Finset.Subset.antisymm hsub'
      intro x hx
      exact hcov x (List.mem_toFinset.mp hx)
    show isComplete (on_pong cache pongSock).1 = true
    simp only [isComplete, hreqEq, hset, decide_eq_true_eq]
    exact List.toFinset_card_of_nodup hreqN
  · intro b hb hov hfresh hreq hrecv
    simp only [pingOnTimeout]
    exact pingFold_kills pingTimeout now cache.receivedCandidates cache.requestedCandidates
      tbs b hnodup hb hov hfresh hreq hrecv
  · intro b hb hfresh hdisj
    simp only [pingOnTimeout]
    exact pingFold_preserves pingTimeout now cache.receivedCandidates cache.requestedCandidates
      tbs b hb hfresh hdisj

/-- Witness for C4 amended: a completing pong pops the cache, and a fresh
nonzero-overlap non-responder is removed on timeout. -/
theorem ping_request_cache_amended_witness :
    (on_pong ⟨[5, 6], {6}⟩ 5).2 = true ∧
    (⟨2, ∅, 5, 100, 22⟩ : ActualTasteBuddy) ∉
      pingOnTimeout 10 100 ⟨[5], ∅⟩ [⟨2, ∅, 5, 100, 22⟩] := by
  constructor
  · exact (ping_request_cache_amended 10 100 ⟨[5, 6], {6}⟩ [] 5 (by decide)).1
      (by decide) (by decide) (by decide)
  · exact (ping_request_cache_amended 10 100 ⟨[5], ∅⟩ [⟨2, ∅, 5, 100, 22⟩] 0 (by decide)).2.1
      ⟨2, ∅, 5, 100, 22⟩ (by decide) (by decide) (by decide) (by decide) (by decide)

lemma pruneStaleTbs_idem (pingTimeout now : Int) (tbs : List ActualTasteBuddy) :
    pruneStaleTbs pingTimeout now (pruneStaleTbs pingTimeout now tbs)
      = pruneStaleTbs pingTimeout now tbs := by
  simp [pruneStaleTbs, List.filter_filter]

lemma isTasteBuddyMid_fst (pingTimeout now : Int) (tbs : List ActualTasteBuddy) (m : Nat) :
    (isTasteBuddyMid pingTimeout now tbs m).1 = pruneStaleTbs pingTimeout now tbs := rfl

lemma isTasteBuddyMid_isSome (pingTimeout now : Int) (tbs : List ActualTasteBuddy) (m : Nat) :
    ((isTasteBuddyMid pingTimeout now tbs m).2).isSome = freshNonzeroMid pingTimeout now tbs m := by
  rw [Bool.eq_iff_iff]
  constructor
  · intro h
    rcases List.find?_isSome.mp h with ⟨tb, htb, hpred⟩
    exact List.any_eq_true.mpr ⟨tb, htb, hpred⟩
  · intro h
    rcases List.any_eq_true.mp h with ⟨tb, htb, hpred⟩
    exact List.find?_isSome.mpr ⟨tb, htb, hpred⟩

lemma yielded_prune (pingTimeout now : Int) (tbs : List ActualTasteBuddy) :
    (yieldTasteBuddies pingTimeout now none (pruneStaleTbs pingTimeout now tbs)).2
      = (yieldTasteBuddies pingTimeout now none tbs).2 := by
  simp only [yieldTasteBuddies, pruneStaleTbs_idem]

lemma freshNonzeroMid_prune (pingTimeout now : Int) (tbs : List ActualTasteBuddy) (m : Nat) :
    freshNonzeroMid pingTimeout now (pruneStaleTbs pingTimeout now tbs) m
      = freshNonzeroMid pingTimeout now tbs m := by
  simp only [freshNonzeroMid, yielded_prune]

lemma ptbKeep_prune (pingTimeout now : Int) (tbs : List ActualTasteBuddy) :
    ptbKeep pingTimeout now (pruneStaleTbs pingTimeout now tbs) = ptbKeep pingTimeout now tbs :=
  funext fun p => by simp only [ptbKeep, freshNonzeroMid_prune]

lemma cleanPossibleGo_spec (pingTimeout now : Int) :
    ∀ (i : Nat) (s : DState), i ≤ s.ptbs.length →
      cleanPossibleGo pingTimeout now i s
        = ⟨if i = 0 then s.tbs else pruneStaleTbs pingTimeout now s.tbs,
          (s.ptbs.take i).filter (ptbKeep pingTimeout now s.tbs) ++ s.ptbs.drop i⟩ := by
  intro i
  induction i with
  | zero =>
    intro s _
    cases s
    simp [cleanPossibleGo]
  | succ i ih =>
    intro s hle
    have h : i < s.ptbs.length := by omega
    have htake : s.ptbs.take (i + 1)
        = s.ptbs.take i ++ [s.ptbs[i]] := by
      rw [List.take_succ, List.getElem?_eq_getElem h]
      rfl
    have htakelen : (s.ptbs.take i).length = i := by
      rw [List.length_take]
      omega
    rw [cleanPossibleGo, dif_pos h]
    by_cases hbad : (decide (timeRemaining pingTimeout now s.ptbs[i].timestamp = 0)
        || ((isTasteBuddyMid pingTimeout now s.tbs s.ptbs[i].candidateMid).2).isSome) = true
    · rw [if_pos hbad]
      have hkeep : ptbKeep pingTimeout now s.tbs s.ptbs[i] = false := by
        rw [isTasteBuddyMid_isSome] at hbad
        simp only [ptbKeep, hbad]
        rfl
      have hlen2 : i ≤ (s.ptbs.eraseIdx i).length := by
        rw [List.eraseIdx_eq_take_drop_succ]
        simp only [List.length_append, List.length_drop]
        omega
      rw [ih ⟨(isTasteBuddyMid pingTimeout now s.tbs s.ptbs[i].candidateMid).1,
        s.ptbs.eraseIdx i⟩ hlen2]
      rw [isTasteBuddyMid_fst]
      have htk : (s.ptbs.eraseIdx i).take i = s.ptbs.take i := by
        rw [List.eraseIdx_eq_take_drop_succ,
          List.take_append_of_le_length (by omega), List.take_take]
        simp
      have hdr : (s.ptbs.eraseIdx i).drop i = s.ptbs.drop (i + 1) := by
        rw [List.eraseIdx_eq_take_drop_succ,
          List.drop_append_of_le_length (by omega),
          List.drop_eq_nil_of_le (by omega), List.nil_append]
      rw [htk, hdr, ptbKeep_prune]
      have htbs : (if i = 0 then pruneStaleTbs pingTimeout now s.tbs
          else pruneStaleTbs pingTimeout now (pruneStaleTbs pingTimeout now s.tbs))
          = pruneStaleTbs pingTimeout now s.tbs := by
        by_cases hi : i = 0
        · rw [if_pos hi]
        · rw [if_neg hi, pruneStaleTbs_idem]
      rw [htbs, htake, List.filter_append]
      simp [hkeep]
    · rw [if_neg hbad]
      have hkeep : ptbKeep pingTimeout now s.tbs s.ptbs[i] = true := by
        rw [isTasteBuddyMid_isSome] at hbad
        simp only [ptbKeep]
        rw [Bool.eq_false_iff.mpr hbad]
        rfl
      rw [ih ⟨(isTasteBuddyMid pingTimeout now s.tbs s.ptbs[i].candidateMid).1, s.ptbs⟩
        (Nat.le_of_lt h)]
      rw [isTasteBuddyMid_fst]
      have htbs : (if i = 0 then pruneStaleTbs pingTimeout now s.tbs
          else pruneStaleTbs pingTimeout now (pruneStaleTbs pingTimeout now s.tbs))
          = pruneStaleTbs pingTimeout now s.tbs := by
        by_cases hi : i = 0
        · rw [if_pos hi]
        · rw [if_neg hi, pruneStaleTbs_idem]
      rw [htbs, ptbKeep_prune, htake, List.filter_append]
      have hdrop : s.ptbs.drop i = s.ptbs[i] :: s.ptbs.drop (i + 1) :=
        List.drop_eq_getElem_cons h
      rw [hdrop]
      simp [hkeep]

lemma clean_ptbs_eq (pingTimeout now : Int) (s : DState) :
    (clean_possible_taste_buddies pingTimeout now s).ptbs
      = s.ptbs.filter (ptbKeep pingTimeout now s.tbs) := by
  unfold clean_possible_taste_buddies
  rw [cleanPossibleGo_spec pingTimeout now s.ptbs.length s (le_refl _)]
  simp [List.take_length, List.drop_length]

lemma clean_tbs_eq (pingTimeout now : Int) (s : DState) (h : s.ptbs ≠ []) :
    (clean_possible_taste_buddies pingTimeout now s).tbs
      = pruneStaleTbs pingTimeout now s.tbs := by
  unfold clean_possible_taste_buddies
  rw [cleanPossibleGo_spec pingTimeout now s.ptbs.length s (le_refl _)]
  have : s.ptbs.length ≠ 0 := fun hc => h (List.length_eq_zero.mp hc)
  simp [this]

/-- C3 counterexample: a zero-overlap confirmed buddy with MID 7 is
invisible to `is_taste_buddy_mid`, so `add_possible_taste_buddies` happily
adds a possible buddy with the same MID — a reachable state has MID 7 in
both lists, refuting the claimed invariant. -/
theorem reachable_mid_in_both_cex :
    Reachable 99 10 ⟨[⟨0, ∅, 0, 100, 7⟩], [⟨1, {1}, 100, 7, 2⟩]⟩ ∧
    (((⟨[⟨0, ∅, 0, 100, 7⟩], [⟨1, {1}, 100, 7, 2⟩]⟩ : DState).tbs.any
        (fun tb => tb.candidateMid == 7)) = true ∧
      ((⟨[⟨0, ∅, 0, 100, 7⟩], [⟨1, {1}, 100, 7, 2⟩]⟩ : DState).ptbs.any
        (fun p => p.candidateMid == 7)) = true) := by
  refine ⟨?_, by decide, by decide⟩
  have h1 : Reachable 99 10 (⟨[], []⟩ : DState) := Reachable.init
  have h2 := Reachable.addTB [] [⟨0, ∅, 0, 100, 7⟩] ⟨[], []⟩ h1
  have h3 := Reachable.addPossible [] 100 [⟨1, {1}, 100, 7, 2⟩] _ h2
  have he : add_possible_taste_buddies [] 99 10 100
      ({ (⟨[], []⟩ : DState) with
          tbs := add_taste_buddies [] ([] : List ActualTasteBuddy) [⟨0, ∅, 0, 100, 7⟩] })
      [⟨1, {1}, 100, 7, 2⟩]
      = (⟨[⟨0, ∅, 0, 100, 7⟩], [⟨1, {1}, 100, 7, 2⟩]⟩ : DState) := by decide
  exact he ▸ h3

/-- C3 amended: immediately after `clean_possible_taste_buddies`, no MID is
both the `candidate_mid` of a *nonzero-overlap* confirmed buddy and of a
possible buddy.  (The general invariant fails: zero-overlap buddies are
invisible to `is_taste_buddy_mid`, and other operations do not purge.) -/
theorem clean_possible_mid_disjoint (pingTimeout now : Int) (s : DState) (m : Nat) :
    (((clean_possible_taste_buddies pingTimeout now s).tbs.any
        (fun tb => decide (tb.overlap ≠ 0) && (tb.candidateMid == m))) &&
      ((clean_possible_taste_buddies pingTimeout now s).ptbs.any
        (fun p => p.candidateMid == m))) = false := by
  rw [Bool.eq_false_iff]
  intro hcon
  rw [Bool.and_eq_true] at hcon
  obtain ⟨h1, h2⟩ := hcon
  rw [clean_ptbs_eq, List.any_eq_true] at h2
  obtain ⟨p, hp, hpm⟩ := h2
  have hkeep := (List.mem_filter.mp hp).2
  have hpmem : p ∈ s.ptbs := (List.mem_filter.mp hp).1
  have hne : s.ptbs ≠ [] := fun hc => by rw [hc] at hpmem; simp at hpmem
  rw [clean_tbs_eq pingTimeout now s hne, List.any_eq_true] at h1
  obtain ⟨tb, htb, htbc⟩ := h1
  rw [Bool.and_eq_true, decide_eq_true_eq] at htbc
  have hmid : freshNonzeroMid pingTimeout now s.tbs m = true := by
    rw [freshNonzeroMid, List.any_eq_true]
    refine ⟨tb, List.mem_filter.mpr ⟨htb, by simp [htbc.1]⟩, ?_⟩
    have hmid' : tb.candidateMid = m := by simpa using htbc.2
    simp [hmid']
  have hpm' : p.candidateMid = m := by simpa using hpm
  rw [ptbKeep, hpm', hmid, Bool.or_true] at hkeep
  simp at hkeep

/-- C8.  `get_most_similar(candidate)` first purges via
`clean_possible_taste_buddies`; if possible buddies remain it pops the head
— which has maximal overlap when the list is sorted descending, the
invariant maintained by `add_possible_taste_buddies` — and returns
`(head.received_from, head.candidate_mid)`; otherwise `(candidate, None)`. -/
theorem get_most_similar_spec (pingTimeout now : Int) (cSock : Nat) (s : DState)
    (hsorted : s.ptbs.Pairwise (fun a b => b.overlap ≤ a.overlap)) :
    ((clean_possible_taste_buddies pingTimeout now s).ptbs = [] →
      get_most_similar pingTimeout now cSock s
        = ((cSock, none), clean_possible_taste_buddies pingTimeout now s)) ∧
    (∀ p rest, (clean_possible_taste_buddies pingTimeout now s).ptbs = p :: rest →
      (get_most_similar pingTimeout now cSock s
          = ((p.receivedFromSock, some p.candidateMid),
            ⟨(clean_possible_taste_buddies pingTimeout now s).tbs, rest⟩) ∧
        ∀ q ∈ rest, q.overlap ≤ p.overlap)) := by
  constructor
  · intro hnil
    unfold get_most_similar
    rw [hnil]
  · intro p rest hcons
    constructor
    · unfold get_most_similar
      rw [hcons]
    · intro q hq
      have hsorted' : ((clean_possible_taste_buddies pingTimeout now s).ptbs).Pairwise
          (fun a b => b.overlap ≤ a.overlap) := by
        rw [clean_ptbs_eq]
        exact hsorted.filter _
      rw [hcons] at hsorted'
      exact (List.pairwise_cons.mp hsorted').1 q hq

/-- Witness for C8 at a concrete sorted state: the head possible buddy is
popped and its `(received_from, MID)` returned. -/
theorem get_most_similar_spec_witness :
    get_most_similar 10 100 3 ⟨[], [⟨2, {1}, 100, 41, 8⟩, ⟨1, {2}, 100, 42, 9⟩]⟩
      = ((8, some 41), ⟨[], [⟨1, {2}, 100, 42, 9⟩]⟩) :=
  ((get_most_similar_spec 10 100 3 ⟨[], [⟨2, {1}, 100, 41, 8⟩, ⟨1, {2}, 100, 42, 9⟩]⟩
      (by decide)).2 ⟨2, {1}, 100, 41, 8⟩ [⟨1, {2}, 100, 42, 9⟩] (by decide)).1

/-- C9.  With a non-`None` `exclude_candidate` whose `get_member()` reports
no member, `dispersy_get_introduce_candidate` raises `AttributeError`
instead of falling through to the framework default. -/
theorem introduce_candidate_attribute_error (requestedIntroductions : List (Nat × Nat))
    (frameworkDefault : Option Nat) (c : CandidateModel) (hnone : c.member = none) :
    dispersy_get_introduce_candidate requestedIntroductions frameworkDefault (some c)
      = .error "AttributeError" := by
  cases c with
  | mk sock mem =>
    subst hnone
    rfl

/-- Witness for C9 at a concrete memberless candidate. -/
theorem introduce_candidate_attribute_error_witness :
    dispersy_get_introduce_candidate [(4, 9)] (some 3) (some ⟨5, none⟩)
      = Except.error "AttributeError" :=
  introduce_candidate_attribute_error [(4, 9)] (some 3) ⟨5, none⟩ rfl

lemma mem_unload_iff (cs : List CommunityModel) (c' : CommunityModel) :
    c' ∈ unload_inactive_communities cs ↔ ∃ c ∈ cs, is_active c = (c', true) := by
  simp only [unload_inactive_communities, List.mem_filterMap, List.mem_map]
  constructor
  · rintro ⟨pair, ⟨c, hc, hpair⟩, hif⟩
    refine ⟨c, hc, ?_⟩
    rw [hpair]
    cases pair with
    | mk x b =>
      cases b
      · simp at hif
      · simp only [if_true] at hif
        rw [Option.some_inj] at hif
        rw [hif]
  · rintro ⟨c, hc, heq⟩
    exact ⟨(c', true), ⟨c, hc, heq⟩, by simp⟩

/-- C6.  On a cleanup tick: a `DiscoveryCommunity` always survives
untouched; a `TrackerCommunity` with a verified candidate survives with its
strikes reset to 0; one without resets nothing, increments, and survives
exactly while the counter stays below 3; and every surviving non-discovery
community has an updated strike count below 3 (so any community reaching 3
strikes was unloaded). -/
theorem unload_inactive_spec (cs : List CommunityModel) :
    (∀ c ∈ cs, c.kind = .discovery → c ∈ unload_inactive_communities cs) ∧
    (∀ c ∈ cs, c.kind = .tracker → c.hasVerifiedCandidate = true →
      ({ c with strikes := 0 } : CommunityModel) ∈ unload_inactive_communities cs) ∧
    (∀ c ∈ cs, c.kind = .tracker → c.hasVerifiedCandidate = false → c.strikes + 1 < 3 →
      ({ c with strikes := c.strikes + 1 } : CommunityModel) ∈ unload_inactive_communities cs) ∧
    (∀ c' ∈ unload_inactive_communities cs, c'.kind = CommunityKind.discovery ∨ c'.strikes < 3) := by
  refine ⟨?_, ?_, ?_, ?_⟩
  · intro c hc hk
    exact (mem_unload_iff cs c).mpr ⟨c, hc, by simp [is_active, hk]⟩
  · intro c hc hk hv
    refine (mem_unload_iff cs _).mpr ⟨c, hc, ?_⟩
    simp [is_active, update_strikes, hk, hv]
  · intro c hc hk hv h3
    refine (mem_unload_iff cs _).mpr ⟨c, hc, ?_⟩
    simp [is_active, update_strikes, hk, hv, h3]
  · intro c' hc'
    rcases (mem_unload_iff cs c').mp hc' with ⟨c, _, heq⟩
    cases hk : c.kind
    · left
      simp only [is_active, hk] at heq
      rw [← (Prod.mk.injEq _ _ _ _).mp heq |>.1, hk]
    · right
      simp only [is_active, hk] at heq
      obtain ⟨h1, h2⟩ := (Prod.mk.injEq _ _ _ _).mp heq
      rw [← h1]
      exact of_decide_eq_true h2
    · right
      simp only [is_active, hk] at heq
      obtain ⟨h1, h2⟩ := (Prod.mk.injEq _ _ _ _).mp heq
      rw [← h1]
      exact of_decide_eq_true h2

/-- Witness for C6 at a concrete community list. -/
theorem unload_inactive_spec_witness :
    (⟨.discovery, 0, false⟩ : CommunityModel) ∈
      unload_inactive_communities
        [⟨.discovery, 0, false⟩, ⟨.tracker, 2, false⟩, ⟨.tracker, 5, true⟩] ∧
    (⟨.tracker, 0, true⟩ : CommunityModel) ∈
      unload_inactive_communities
        [⟨.discovery, 0, false⟩, ⟨.tracker, 2, false⟩, ⟨.tracker, 5, true⟩] := by
  constructor
  · exact (unload_inactive_spec _).1 ⟨.discovery, 0, false⟩ (by decide) rfl
  · exact (unload_inactive_spec
      [⟨.discovery, 0, false⟩, ⟨.tracker, 2, false⟩, ⟨.tracker, 5, true⟩]).2.1
      ⟨.tracker, 5, true⟩ (by decide) rfl rfl

lemma exceptMapList_ok_of_forall_isOk {α β : Type} (f : α → Except String β) :
    ∀ l : List α, (∀ x ∈ l, (f x).isOk = true) →
      exceptMapList f l = .ok (l.filterMap (fun x => (f x).toOption)) := by
  intro l
  induction l with
  | nil => intro _; rfl
  | cons a rest ih =>
    intro h
    have ha := h a (List.mem_cons_self a rest)
    cases hfa : f a with
    | error e => rw [hfa] at ha; simp [Except.isOk, Except.toBool] at ha
    | ok b =>
      rw [show exceptMapList f (a :: rest)
          = (match f a with
            | .error e => .error e
            | .ok b =>
              match exceptMapList f rest with
              | .error e => .error e
              | .ok bs => .ok (b :: bs)) from rfl, hfa,
        ih (fun x hx => h x (List.mem_cons_of_mem a hx))]
      simp [List.filterMap_cons, hfa, Except.toOption]

/-- C5 counterexample: a single malformed (non-hex) line makes the packet
comprehension raise outside the `except IOError` handler, so
`_load_persistent_storage` aborts startup instead of logging and skipping
that line. -/
theorem load_persistent_storage_malformed_cex :
    (loadPersistentStorage (some [['d', 'x', ' ', 'z', 'z']])).isOk = false := by
  decide

/-- C5 amended: an unreadable file (`IOError`) is caught, nothing is
replayed and startup proceeds; when every non-comment line parses, the
decoded packets are replayed in reverse file order through the
incoming-packet path (caching disabled, loopback sender), and per-packet
processing errors are logged and skipped; but a malformed or non-hex line
raises during parsing and aborts startup. -/
theorem load_persistent_storage_amended (lines : List (List Char))
    (hok : ∀ l ∈ lines.filter (fun l => !startsWithHash l), (parseStorageLine l).isOk = true) :
    loadPersistentStorage (some lines)
      = .ok (((lines.filter (fun l => !startsWithHash l)).filterMap
          (fun l => (parseStorageLine l).toOption)).reverse) ∧
    loadPersistentStorage none = .ok [] := by
  constructor
  · show (match parseStoragePackets lines with
      | Except.error e => (Except.error e : Except String (List (List Nat)))
      | Except.ok packets => Except.ok packets.reverse) = _
    rw [show parseStoragePackets lines
        = exceptMapList parseStorageLine (lines.filter (fun l => !startsWithHash l)) from rfl,
      exceptMapList_ok_of_forall_isOk _ _ hok]
  · rfl

/-- Witness for C5 amended at a concrete two-line file: a comment and one
valid `name hex` line. -/
theorem load_persistent_storage_amended_witness :
    loadPersistentStorage (some [['#', ' ', 'c'], ['i', 'd', ' ', 'a', 'b', 'f', 'f']])
      = Except.ok [[171, 255]] :=
  ((load_persistent_storage_amended [['#', ' ', 'c'], ['i', 'd', ' ', 'a', 'b', 'f', 'f']]
      (by decide)).1).trans (by rfl)

end Dispersy
